import Mathlib

/-!
Shallow embedding of `nanoid.go` (package `nanoid` of devmiek/nanoid-go).

Conventions of the embedding:
* Go bytes are `Nat` values; byte truncation `byte(x)` is `x % 256` and the
  bitwise AND `&` is `&&&`.
* Go strings are byte strings; an alphabet is modelled as its list of bytes
  (`List Nat`).  The default alphabet is kept as a `String` and converted,
  its characters are all ASCII so `Char.toNat` is the byte value.
* The `float64` arithmetic of `getRandomSize` is modelled by exact rational
  arithmetic: the literal `1.6` denotes the exact rational 8/5.
* `math.Log(float64(v))/math.Ln2` truncated to `int` in `initializeMask` is
  the floor of the base-2 logarithm of `v`; on the whole domain reachable
  from a valid alphabet (`v = (L-1)|1` with `L` between 1 and 256, so odd `v` at most 255)
  the floating-point computation is exact, and it is modelled by an
  executable floor-log2 (`floorLog2`).
* The `io.Reader` random source is modelled as a deterministic response
  table: call number `k` with a requested size `s` yields a list of bytes
  (written into the front of the buffer, truncated to the buffer length)
  and an optional error.  A short read delivers fewer than `s` bytes.
* The unbounded generation loop of `Read` is modelled with fuel: the
  outcome `fuelOut` means the loop was still running after `fuel` batch
  reads.  Go `panic` is the outcome `panicked`.
* The pooled scratch buffer of the custom-alphabet path may hold arbitrary
  stale bytes; `read` therefore takes the initial scratch contents as an
  explicit argument (`List.replicate size 0` models a freshly allocated
  buffer).
-/

namespace Nanoid

/-- The `MaxAlphabetSize` constant of the source. -/
def MaxAlphabetSize : Nat := 256

/-- The `bufSliceSize` constant of the source: pooled scratch buffers have this size. -/
def bufSliceSize : Nat := 128

/-- The `DefaultAlphabet` constant of the source. -/
def DefaultAlphabet : String :=
  "ModuleSymbhasOwnPr-0123456789ABCDEFGHNRVfgctiUvz_KqYTJkLxpZXIjQW"

/-- The default alphabet as a byte list (all characters are ASCII). -/
def defaultAlphabetBytes : List Nat := DefaultAlphabet.data.map Char.toNat

/-- Structural-fuel helper for `floorLog2`; the fuel only needs to dominate
the number of halvings. -/
def floorLog2Aux : Nat → Nat → Nat
  | 0, _ => 0
  | fuel + 1, n => if n < 2 then 0 else floorLog2Aux fuel (n / 2) + 1

/-- Floor of `log2 n` for `n ≥ 1` (and `0` for `n = 0`), executable by
structural recursion.  This models `int(math.Log(float64(n)) / math.Ln2)`
from `initializeMask`, which is exact for every `n` arising there. -/
def floorLog2 (n : Nat) : Nat := floorLog2Aux n n

/-- Model of `Reader.initializeMask` from the source, as a function of the alphabet
length:

  size := len(r.alphabet)
  clz32 := 31 - (int(math.Log(float64(size-1|1))/math.Ln2) | 0) | 0
  r.mask = (2 << (31 - clz32)) - 1

(`| 0` on an `int` is the identity; Go `size-1|1` parses as `(size-1) | 1`.) -/
def initializeMask (alphabetLen : Nat) : Nat :=
  let clz32 := 31 - floorLog2 ((alphabetLen - 1) ||| 1)
  (2 <<< (31 - clz32)) - 1

/-- The panic guard of `Reader.initializeMask`: panics (error) when the
alphabet is empty, otherwise returns the mask. -/
def initializeMaskChecked (alphabet : List Nat) : Except String Nat :=
  if alphabet.length = 0 then .error "nanoid: alphabet invalid"
  else .ok (initializeMask alphabet.length)

/-- Model of `Reader.getRandomSize` from the source:

  x := (1.6 * float64(r.mask*size)) / float64(len(r.alphabet))
  return int(math.Ceil(x))

with the float64 arithmetic modelled by exact rational arithmetic: the
exact value of `x` is `(8 · (mask · size)) / (5 · alphabetLen)`, and its
ceiling is computed executably by natural ceiling division.  Agreement
with the `⌈·⌉` formula over `ℚ` is the lemma `getRandomSize_eq_ceil`. -/
def getRandomSize (mask alphabetLen size : Nat) : Nat :=
  (8 * (mask * size) + (5 * alphabetLen - 1)) / (5 * alphabetLen)

/-- A random source: call index and requested size to (bytes delivered,
optional error).  The bytes are written into the front of the destination
buffer (truncated to its length). -/
def RandSource (ε : Type) : Type := Nat → Nat → List Nat × Option ε

/-- The `Reader` struct of the source. -/
structure Reader (ε : Type) where
  rander : RandSource ε
  alphabet : List Nat
  mask : Nat

/-- Model of `Reader.getRandomSize` with its panic guards: panics (error) when the
alphabet is empty or the mask is not positive. -/
def getRandomSizeChecked (r : Reader ε) (size : Nat) : Except String Nat :=
  if r.alphabet.length = 0 then .error "nanoid: alphabet invalid"
  else if r.mask = 0 then .error "nanoid: mask invalid"
  else .ok (getRandomSize r.mask r.alphabet.length size)

/-- Overwrite the front of buffer `old` with the bytes `new` delivered by a
source; positions past `new.length` keep their stale contents, and delivery
is truncated to the buffer length. -/
def overwrite (old new : List Nat) : List Nat :=
  new.take old.length ++ old.drop (min new.length old.length)

/-- Errors returned by `Reader.Read`: `io.ErrShortBuffer` for an empty
destination, or an error of the random source propagated verbatim. -/
inductive ReadError (ε : Type) where
  | shortBuffer
  | src (e : ε)
deriving DecidableEq

/-- The result of a returning `Reader.Read` call: the returned count `n`,
the returned error, the final contents of the caller's buffer, and the
number of reads issued to the random source. -/
structure ReadResult (ε : Type) where
  count : Nat
  error : Option (ReadError ε)
  buffer : List Nat
  calls : Nat
deriving DecidableEq

/-- Outcome of `Reader.Read` under fuel: a return, a Go panic, or fuel
exhaustion (the batch loop was still running). -/
inductive ReadOutcome (ε : Type) where
  | ok (res : ReadResult ε)
  | panicked (msg : String)
  | fuelOut
deriving DecidableEq

/-- The scan of one scratch batch in `Reader.Read`:

  for index := range random {
    position := random[index] & byte(r.mask)
    if position < byte(len(r.alphabet)) {
      p[n] = r.alphabet[position]
      n++
      if n == len(p) { return n, err }
    }
  }

where `byte(x)` truncates modulo 256.  Returns the updated `(n, p)`. -/
def scanScratch (alphabet : List Nat) (mask : Nat) :
    List Nat → Nat → List Nat → Nat × List Nat
  | [], n, p => (n, p)
  | b :: rest, n, p =>
    if b &&& (mask % 256) < alphabet.length % 256 then
      if n + 1 = p.length then (n + 1, p.set n (alphabet.getD (b &&& (mask % 256)) 0))
      else scanScratch alphabet mask rest (n + 1) (p.set n (alphabet.getD (b &&& (mask % 256)) 0))
    else scanScratch alphabet mask rest n p

/-- The batch loop of `Reader.Read` (custom-alphabet path):

  for {
    _, err = r.rander.Read(random)
    if err != nil { return n, err }
    for index := range random { ... scanScratch ... }
  }

`idx` is the index of the next call to the random source; the reported
byte count of the source is ignored, exactly as in the source
(`_, err = r.rander.Read(random)`). -/
def readLoop (r : Reader ε) (size : Nat) :
    Nat → Nat → List Nat → Nat → List Nat → ReadOutcome ε
  | 0, _, _, _, _ => .fuelOut
  | fuel + 1, idx, scratch, n, p =>
    let resp := r.rander idx size
    let scratch' := overwrite scratch (resp.1.map (· % 256))
    match resp.2 with
    | some e => .ok ⟨n, some (.src e), p, idx + 1⟩
    | none =>
      let np := scanScratch r.alphabet r.mask scratch' n p
      if np.1 = p.length then .ok ⟨np.1, none, np.2, idx + 1⟩
      else readLoop r size fuel (idx + 1) scratch' np.1 np.2

/-- Model of `Reader.Read` from the source.  `p0` is the initial contents of the
caller's buffer `p`, `scratch0` the initial contents of the scratch buffer
used on the custom-alphabet path (stale pool bytes, or zeros for a fresh
allocation), `fuel` bounds the number of batch reads. -/
def read (r : Reader ε) (p0 scratch0 : List Nat) (fuel : Nat) : ReadOutcome ε :=
  if p0.length = 0 then .ok ⟨0, some .shortBuffer, p0, 0⟩
  else if r.alphabet.length = 0 then
    let resp := r.rander 0 p0.length
    let p := overwrite p0 (resp.1.map (· % 256))
    match resp.2 with
    | some e => .ok ⟨0, some (.src e), p, 1⟩
    | none =>
      .ok ⟨p0.length, none, p.map (fun b => defaultAlphabetBytes.getD (b &&& 63) 0), 1⟩
  else
    match getRandomSizeChecked r p0.length with
    | .error msg => .panicked msg
    | .ok size => readLoop r size fuel 0 scratch0 0 p0

/-- The two reader options provided by the package. -/
inductive ReaderOption (ε : Type) where
  | withAlphabet (alphabet : List Nat)
  | withRandReader (rander : Option (RandSource ε))

/-- Application of one option, from `WithAlphabet` and `WithRandReader`:
`WithAlphabet` rejects an empty alphabet and one longer than
`MaxAlphabetSize`, and on success stores the alphabet and recomputes the
mask; `WithRandReader` rejects a nil reader. -/
def applyOption : ReaderOption ε → Reader ε → Except String (Reader ε)
  | .withAlphabet alphabet, r =>
    if alphabet.length = 0 then .error "alphabet invalid"
    else if alphabet.length > MaxAlphabetSize then .error "alphabet is too long"
    else .ok { r with alphabet := alphabet, mask := initializeMask alphabet.length }
  | .withRandReader rander, r =>
    match rander with
    | none => .error "nil rand reader"
    | some rd => .ok { r with rander := rd }

/-- The option loop of `NewReader`: apply options in order, failing fast on
the first error. -/
def applyOptions : List (ReaderOption ε) → Reader ε → Except String (Reader ε)
  | [], r => .ok r
  | o :: os, r =>
    match applyOption o r with
    | .error e => .error e
    | .ok r' => applyOptions os r'

/-- Model of `NewReader` from the source: start from the default configuration (the
system random source `defaultRander`, no alphabet, zero mask) and apply the
options in order. -/
def newReader (defaultRander : RandSource ε) (options : List (ReaderOption ε)) :
    Except String (Reader ε) :=
  applyOptions options ⟨defaultRander, [], 0⟩

/-- Ceiling base-2 logarithm, used to state the spec's mask formula. -/
def ceilLog2 (L : Nat) : Nat := if L ≤ 1 then 0 else floorLog2 (L - 1) + 1

/-- Modelled from the spec's words (for comparison with `initializeMask`):
"mask M such that M = 2^ceil(log2(L)) − 1". -/
def maskSpecFormula (L : Nat) : Nat := 2 ^ ceilLog2 L - 1

/-! ### Concrete sources and readers used in witnesses and counterexamples -/

/-- A source that always succeeds but delivers no bytes (a short read with
a nil error). -/
def nullSource : RandSource Unit := fun _ _ => ([], none)

/-- A source that always delivers a full buffer of zero bytes. -/
def zeroSource : RandSource Unit := fun _ size => (List.replicate size 0, none)

/-- A source that always fails, delivering no bytes. -/
def failSource : RandSource Unit := fun _ _ => ([], some ())

/-- A source that always fails, though it also delivers two bytes. -/
def failBytesSource : RandSource Unit := fun _ _ => ([1, 2], some ())

/-- A source that delivers two (rejected) bytes on the first call and fails
on every later call. -/
def stepSource : RandSource Unit := fun k _ => if k = 0 then ([3, 3], none) else ([], some ())

/-- A source that delivers the bytes `0, 1, …, 20`. -/
def range21Source : RandSource Unit := fun _ _ => (List.range 21, none)

/-- A reader with a 256-symbol alphabet, as configured by `WithAlphabet`. -/
def alpha256Reader : Reader Unit := ⟨zeroSource, List.range 256, initializeMask 256⟩

/-- A reader with the two-symbol alphabet "AB" (mask 1) over `nullSource`. -/
def abReader : Reader Unit := ⟨nullSource, [65, 66], 1⟩

/-- A reader with the two-symbol alphabet "AB" (mask 1) over `failSource`. -/
def abFailReader : Reader Unit := ⟨failSource, [65, 66], 1⟩

/-- A reader with the two-symbol alphabet "AB" (mask 1) over
`failBytesSource`. -/
def abFailBytesReader : Reader Unit := ⟨failBytesSource, [65, 66], 1⟩

/-- A reader with the three-symbol alphabet "ABC" (mask 3) over
`stepSource`. -/
def abcStepReader : Reader Unit := ⟨stepSource, [65, 66, 67], 3⟩

/-- A default-alphabet (fast path) reader over `range21Source`. -/
def defaultPathReader : Reader Unit := ⟨range21Source, [], 0⟩

/-- A reader with the 64-symbol alphabet `0,…,63`, as configured by
`WithAlphabet`. -/
def sampleReader64 : Reader Unit := ⟨nullSource, List.range 64, initializeMask 64⟩

/-! ### Mask derivation -/

/-- Exhaustive check of the mask's shape over the whole valid range of
alphabet lengths. -/
lemma initializeMask_shape :
    ∀ L, L < 257 → 1 ≤ L → ∃ k, k < 9 ∧ initializeMask L = 2 ^ k - 1 ∧
      L - 1 ≤ initializeMask L ∧ initializeMask L < 2 * L := by
  set_option maxRecDepth 40000 in decide

/-- Exhaustive check relating `initializeMask` to the spec formula for
`L ≥ 2`, with the minimality of the mask among values `2^j - 1`
(for exponents below 9; larger exponents give values above 255). -/
lemma initializeMask_spec_bounded :
    ∀ L, L < 257 → 2 ≤ L →
      initializeMask L = maskSpecFormula L ∧ L - 1 ≤ initializeMask L ∧
      initializeMask L ≤ 255 ∧
      ∀ j, j < 9 → L - 1 ≤ 2 ^ j - 1 → initializeMask L ≤ 2 ^ j - 1 := by
  set_option maxRecDepth 40000 in decide

/-- The mask is always positive (`2 << k` is at least 2). -/
lemma one_le_initializeMask (L : Nat) : 1 ≤ initializeMask L := by
  have h2 : 2 * 1 ≤ 2 * 2 ^ (31 - (31 - floorLog2 ((L - 1) ||| 1))) :=
    Nat.mul_le_mul_left 2 Nat.one_le_two_pow
  simp only [initializeMask, Nat.shiftLeft_eq]
  omega

/-- C1 (counterexample): for a one-symbol alphabet the stored mask is `1`,
while the spec formula `2^ceil(log2 1) - 1` gives `0`; moreover the byte `1`
masks to `1`, which is not below the alphabet length `1`, so rejection does
trigger. -/
theorem c1_mask_L1_counterexample :
    initializeMask 1 = 1 ∧ maskSpecFormula 1 = 0 ∧
      ¬((1 &&& initializeMask 1) < 1) := by
  decide

/-- C1 (amended): for every alphabet length `2 ≤ L ≤ 256` the stored mask
equals the spec formula `2^ceil(log2 L) - 1` and is the smallest value of
the form `2^j - 1` that is `≥ L - 1`; for `L = 1` the stored mask is `1`,
not `0`, and rejection can trigger. -/
theorem c1_mask_amended :
    (∀ L, 2 ≤ L → L ≤ 256 →
      initializeMask L = maskSpecFormula L ∧ L - 1 ≤ initializeMask L ∧
      ∀ j, L - 1 ≤ 2 ^ j - 1 → initializeMask L ≤ 2 ^ j - 1) ∧
    initializeMask 1 = 1 := by
  refine ⟨fun L h2 h256 => ?_, by decide⟩
  obtain ⟨heq, hge, h255, hmin⟩ :=
    initializeMask_spec_bounded L (by omega) h2
  refine ⟨heq, hge, fun j hj => ?_⟩
  by_cases hj9 : j < 9
  · exact hmin j hj9 hj
  · have : (255 : Nat) ≤ 2 ^ j - 1 := by
      have h9 : (2 : Nat) ^ 9 ≤ 2 ^ j := Nat.pow_le_pow_right (by omega) (by omega)
      omega
    omega

/-- Instantiation of the amended C1 statement at `L = 5`. -/
theorem c1_mask_witness : initializeMask 5 = maskSpecFormula 5 ∧ maskSpecFormula 5 = 7 :=
  ⟨(c1_mask_amended.1 5 (by decide) (by decide)).1, by decide⟩

/-! ### Random batch sizing -/

/-- The natural ceiling division `(a + (b - 1)) / b` computes the ceiling
of the rational `a / b`. -/
lemma natCeilDiv_cast (a b : Nat) (hb : 0 < b) :
    (((a + (b - 1)) / b : Nat) : ℤ) = ⌈(a : ℚ) / (b : ℚ)⌉ := by
  have hbq : (0 : ℚ) < (b : ℚ) := by exact_mod_cast hb
  obtain ⟨K, hK⟩ : ∃ K, (a + (b - 1)) / b = K := ⟨_, rfl⟩
  obtain ⟨R, hR⟩ : ∃ R, (a + (b - 1)) % b = R := ⟨_, rfl⟩
  have hdm : b * K + R = a + (b - 1) := by
    rw [← hK, ← hR]
    exact Nat.div_add_mod (a + (b - 1)) b
  have hmod : R < b := by
    rw [← hR]
    exact Nat.mod_lt _ hb
  rw [hK]
  have h1 : (b : ℤ) * K + R = (a : ℤ) + b - 1 := by
    have hcast := congrArg (fun x : Nat => (x : ℤ)) hdm
    push_cast [Nat.cast_sub hb] at hcast
    linarith
  have h2 : ((R : Nat) : ℤ) < b := by exact_mod_cast hmod
  have h3 : (0 : ℤ) ≤ ((R : Nat) : ℤ) := Int.ofNat_nonneg _
  refine le_antisymm ?_ ?_
  · have hZ : (((K : Nat) : ℤ) - 1) * b < a := by nlinarith [h1, h2, h3]
    have hlt : (((K : Nat) : ℤ) - 1) < ⌈(a : ℚ) / (b : ℚ)⌉ := by
      rw [Int.lt_ceil, lt_div_iff₀ hbq]
      exact_mod_cast hZ
    omega
  · have hZ : ((a : ℤ)) ≤ ((K : Nat) : ℤ) * b := by nlinarith [h1, h2, h3]
    refine Int.ceil_le.mpr ?_
    rw [div_le_iff₀ hbq]
    exact_mod_cast hZ

/-- The function `getRandomSize` computes exactly the ceiling of the rational
`1.6 * (mask * size) / alphabetLen` (the exact value of the float
expression in the source). -/
lemma getRandomSize_eq_ceil (m L N : Nat) (hL : 0 < L) :
    (getRandomSize m L N : ℤ) = ⌈(1.6 : ℚ) * ((m * N : Nat) : ℚ) / ((L : Nat) : ℚ)⌉ := by
  have hq : (1.6 : ℚ) * ((m * N : Nat) : ℚ) / ((L : Nat) : ℚ)
      = ((8 * (m * N) : Nat) : ℚ) / ((5 * L : Nat) : ℚ) := by
    rw [show (1.6 : ℚ) = 8 / 5 by norm_num]
    push_cast
    ring
  rw [hq]
  exact natCeilDiv_cast (8 * (m * N)) (5 * L) (by omega)

/-- C2 (counterexample): with mask `M = 1` (the mask the code derives for a
two-symbol alphabet) and `N = 5`, the batch size is
`ceil(1.6 · 1 · 5 / 2) = 4 < 5 = N`, although `L ≤ M + 1` holds. -/
theorem c2_randomSize_counterexample :
    getRandomSize 1 2 5 = 4 ∧ 4 < 5 ∧ 2 ≤ 1 + 1 ∧ initializeMask 2 = 1 := by
  decide

/-- C2 (amended): `getRandomSize` returns `ceil(1.6·M·N/L)` (exact rational
value of the float expression); the result is `≥ N` whenever `5·L ≤ 8·M`
(for code-derived masks this holds for every `L` except `L = 2`), and it is
positive for every `N ≥ 1`. -/
theorem c2_randomSize_amended :
    ∀ m L N : Nat, 1 ≤ m → 1 ≤ L → 1 ≤ N →
      (getRandomSize m L N : ℤ) = ⌈(1.6 : ℚ) * ((m * N : Nat) : ℚ) / ((L : Nat) : ℚ)⌉ ∧
      (5 * L ≤ 8 * m → N ≤ getRandomSize m L N) ∧
      0 < getRandomSize m L N := by
  intro m L N hm hL hN
  refine ⟨getRandomSize_eq_ceil m L N (by omega), fun h58 => ?_, ?_⟩
  · unfold getRandomSize
    rw [Nat.le_div_iff_mul_le (by omega : 0 < 5 * L)]
    calc N * (5 * L) ≤ N * (8 * m) := Nat.mul_le_mul_left N h58
      _ = 8 * (m * N) := by ring
      _ ≤ 8 * (m * N) + (5 * L - 1) := Nat.le_add_right _ _
  · unfold getRandomSize
    have h1 : 1 ≤ m * N := Nat.one_le_iff_ne_zero.mpr (by positivity)
    refine Nat.div_pos ?_ (by omega)
    have h2 : 8 * 1 ≤ 8 * (m * N) := Nat.mul_le_mul_left 8 h1
    omega

/-- Instantiation of the amended C2 statement at the configuration of the
repository's own test (`mask = 63`, `L = 64`, `N = 21`, batch size 34). -/
theorem c2_randomSize_witness :
    (getRandomSize 63 64 21 : ℤ)
        = ⌈(1.6 : ℚ) * ((63 * 21 : Nat) : ℚ) / ((64 : Nat) : ℚ)⌉ ∧
      21 ≤ getRandomSize 63 64 21 ∧ 0 < getRandomSize 63 64 21 ∧
      getRandomSize 63 64 21 = 34 := by
  obtain ⟨h1, h2, h3⟩ :=
    c2_randomSize_amended 63 64 21 (by decide) (by decide) (by decide)
  exact ⟨h1, h2 (by decide), h3, by decide⟩

/-! ### The mask invariant (C8) -/

/-- C8: a successful `WithAlphabet` stores `initializeMask` of the alphabet
length as the mask, and that mask is of the form `2^k - 1`, at least
`L - 1`, and below `2·L`.  In this functional embedding no operation
returns a modified reader, so the property is preserved after
construction. -/
theorem c8_mask_invariant (ε : Type) :
    ∀ (a : List Nat) (r r' : Reader ε),
      applyOption (.withAlphabet a) r = .ok r' →
      r'.mask = initializeMask a.length ∧
      (∃ k, r'.mask = 2 ^ k - 1) ∧
      a.length - 1 ≤ r'.mask ∧ r'.mask < 2 * a.length := by
  intro a r r' h
  by_cases h0 : a.length = 0
  · simp [applyOption, h0] at h
  · by_cases h1 : a.length > MaxAlphabetSize
    · simp [applyOption, h0, h1] at h
    · simp only [applyOption, if_neg h0, if_neg h1] at h
      injection h with h2
      subst h2
      have hL2 : a.length < 257 := by
        simp only [MaxAlphabetSize] at h1
        omega
      obtain ⟨k, _, hk, hge, hlt⟩ := initializeMask_shape a.length hL2 (by omega)
      exact ⟨rfl, ⟨k, hk⟩, hge, hlt⟩

/-- Instantiation of C8 at the 64-symbol alphabet `0,…,63`. -/
theorem c8_mask_witness :
    (∃ k, initializeMask 64 = 2 ^ k - 1) ∧
      63 ≤ initializeMask 64 ∧ initializeMask 64 < 128 := by
  have h := c8_mask_invariant Unit (List.range 64) ⟨nullSource, [], 0⟩
      ⟨nullSource, List.range 64, initializeMask (List.range 64).length⟩ rfl
  simpa using h.2

/-! ### Construction (C7, C9) -/

/-- The option loop distributes over list append (fail-fast composition). -/
lemma applyOptions_append (pre post : List (ReaderOption ε)) (r : Reader ε) :
    applyOptions (pre ++ post) r =
      match applyOptions pre r with
      | .error e => .error e
      | .ok r' => applyOptions post r' := by
  induction pre generalizing r with
  | nil => simp [applyOptions]
  | cons o os ih =>
    simp only [List.cons_append, applyOptions]
    cases applyOption o r with
    | error e => rfl
    | ok r' => exact ih r'

/-- C7: options are applied in order with fail-fast semantics:
`WithAlphabet` fails exactly on an empty or over-long alphabet and on
success stores the alphabet and recomputes the mask, `WithRandReader`
fails exactly on a nil source, the first failing option's error is
returned with no reader, and if every option succeeds the configured
reader is returned without error. -/
theorem c7_construction (ε : Type) :
    (∀ (a : List Nat) (r : Reader ε),
        (∃ e, applyOption (.withAlphabet a) r = .error e) ↔
          (a.length = 0 ∨ MaxAlphabetSize < a.length)) ∧
    (∀ (a : List Nat) (r r' : Reader ε),
        applyOption (.withAlphabet a) r = .ok r' →
          r'.alphabet = a ∧ r'.mask = initializeMask a.length ∧
            r'.rander = r.rander) ∧
    (∀ (o : Option (RandSource ε)) (r : Reader ε),
        (∃ e, applyOption (.withRandReader o) r = .error e) ↔ o = none) ∧
    (∀ (pre rest : List (ReaderOption ε)) (o : ReaderOption ε)
        (d : RandSource ε) (r' : Reader ε) (e : String),
        applyOptions pre ⟨d, [], 0⟩ = .ok r' → applyOption o r' = .error e →
          newReader d (pre ++ o :: rest) = .error e) ∧
    (∀ (opts : List (ReaderOption ε)) (d : RandSource ε) (r : Reader ε),
        applyOptions opts ⟨d, [], 0⟩ = .ok r → newReader d opts = .ok r) := by
  refine ⟨?_, ?_, ?_, ?_, ?_⟩
  · intro a r
    constructor
    · rintro ⟨e, he⟩
      by_cases h0 : a.length = 0
      · exact Or.inl h0
      · by_cases h1 : a.length > MaxAlphabetSize
        · exact Or.inr h1
        · simp only [applyOption, if_neg h0, if_neg h1] at he
          cases he
    · rintro (h0 | h1)
      · exact ⟨"alphabet invalid", by simp [applyOption, h0]⟩
      · refine ⟨"alphabet is too long", ?_⟩
        have h0 : ¬a.length = 0 := by
          simp only [MaxAlphabetSize] at h1
          omega
        simp only [applyOption, if_neg h0, if_pos h1]
  · intro a r r' h
    by_cases h0 : a.length = 0
    · simp [applyOption, h0] at h
    · by_cases h1 : a.length > MaxAlphabetSize
      · simp [applyOption, h0, h1] at h
      · simp only [applyOption, if_neg h0, if_neg h1] at h
        injection h with h2
        subst h2
        exact ⟨rfl, rfl, rfl⟩
  · intro o r
    cases o with
    | none => exact ⟨fun _ => rfl, fun _ => ⟨"nil rand reader", rfl⟩⟩
    | some rd =>
      constructor
      · rintro ⟨e, he⟩
        simp [applyOption] at he
      · intro h
        cases h
  · intro pre rest o d r' e hpre ho
    rw [newReader, applyOptions_append, hpre]
    simp only [applyOptions, ho]
  · intro opts d r h
    exact h

/-- Instantiation of C7: an empty alphabet makes construction fail with
the validation error and no reader, while a valid 64-symbol alphabet
yields the configured reader. -/
theorem c7_construction_witness :
    newReader nullSource [ReaderOption.withAlphabet []] = .error "alphabet invalid" ∧
      newReader nullSource [ReaderOption.withAlphabet (List.range 64)]
        = .ok ⟨nullSource, List.range 64, initializeMask (List.range 64).length⟩ := by
  constructor
  · exact (c7_construction Unit).2.2.2.1 [] [] (.withAlphabet []) nullSource
      ⟨nullSource, [], 0⟩ "alphabet invalid" rfl rfl
  · exact (c7_construction Unit).2.2.2.2 [ReaderOption.withAlphabet (List.range 64)]
      nullSource _ rfl

/-- Any reader built by `applyOptions` keeps the invariant that a set
alphabet comes with the mask recomputed from its length. -/
lemma applyOptions_mask_wf :
    ∀ (opts : List (ReaderOption ε)) (r r' : Reader ε),
      applyOptions opts r = .ok r' →
      (r.alphabet ≠ [] → r.mask = initializeMask r.alphabet.length) →
      (r'.alphabet ≠ [] → r'.mask = initializeMask r'.alphabet.length) := by
  intro opts
  induction opts with
  | nil =>
    intro r r' h hwf
    simp only [applyOptions] at h
    injection h with h2
    subst h2
    exact hwf
  | cons o os ih =>
    intro r r' h hwf
    cases o with
    | withAlphabet a =>
      by_cases h0 : a.length = 0
      · simp [applyOptions, applyOption, h0] at h
      · by_cases h1 : a.length > MaxAlphabetSize
        · simp [applyOptions, applyOption, h0, h1] at h
        · simp only [applyOptions, applyOption, if_neg h0, if_neg h1] at h
          exact ih _ _ h (fun _ => rfl)
    | withRandReader o? =>
      cases o? with
      | none => simp [applyOptions, applyOption] at h
      | some rd =>
        simp only [applyOptions, applyOption] at h
        exact ih _ _ h (fun hne => hwf hne)

/-- C9: for every reader produced by a successful `NewReader`, the panic
guards of the custom-alphabet path can never fire: when an alphabet is
set, `initializeMask`'s guard sees a non-empty alphabet and
`getRandomSize`'s guards see a non-empty alphabet and a positive mask. -/
theorem c9_no_panic (ε : Type) :
    ∀ (d : RandSource ε) (opts : List (ReaderOption ε)) (r : Reader ε),
      newReader d opts = .ok r → r.alphabet ≠ [] →
      initializeMaskChecked r.alphabet = .ok r.mask ∧ 1 ≤ r.mask ∧
      ∀ n, getRandomSizeChecked r n
        = .ok (getRandomSize r.mask r.alphabet.length n) := by
  intro d opts r h hne
  have hwf := applyOptions_mask_wf opts ⟨d, [], 0⟩ r h (fun hc => absurd rfl hc)
  have hmask := hwf hne
  have hlen : ¬r.alphabet.length = 0 := by
    have := List.length_pos.mpr hne
    omega
  have hpos : 1 ≤ r.mask := hmask ▸ one_le_initializeMask _
  refine ⟨?_, hpos, fun n => ?_⟩
  · rw [initializeMaskChecked, if_neg hlen, hmask]
  · rw [getRandomSizeChecked, if_neg hlen, if_neg (by omega : ¬r.mask = 0)]

/-- Instantiation of C9 on a constructed 64-symbol reader: the guarded
`getRandomSize` returns the batch size (34 for 21 requested characters)
instead of panicking. -/
theorem c9_no_panic_witness : getRandomSizeChecked sampleReader64 21 = .ok 34 := by
  have h := (c9_no_panic Unit nullSource [.withAlphabet (List.range 64)]
      sampleReader64 rfl (by decide)).2.2 21
  have h2 : getRandomSize sampleReader64.mask sampleReader64.alphabet.length 21 = 34 := by
    decide
  rw [h, h2]

/-! ### The generation loop -/

/-- Reading with `getD` after `set` at a different index is unchanged. -/
lemma getD_set_ne (l : List Nat) (n i v : Nat) (h : n ≠ i) :
    (l.set n v).getD i 0 = l.getD i 0 := by
  simp [List.getD_eq_getElem?_getD, List.getElem?_set_ne h]

/-- The batch scan only moves the cursor forward, keeps the buffer length,
never overshoots a non-full buffer, and leaves every position at or past
the final cursor unchanged. -/
lemma scanScratch_spec (A : List Nat) (M : Nat) :
    ∀ (scratch : List Nat) (n : Nat) (p : List Nat),
      n ≤ (scanScratch A M scratch n p).1 ∧
      (scanScratch A M scratch n p).2.length = p.length ∧
      (n < p.length → (scanScratch A M scratch n p).1 ≤ p.length) ∧
      (∀ i, (scanScratch A M scratch n p).1 ≤ i →
        (scanScratch A M scratch n p).2.getD i 0 = p.getD i 0) := by
  intro scratch
  induction scratch with
  | nil =>
    intro n p
    exact ⟨Nat.le_refl n, rfl, fun h => Nat.le_of_lt h, fun i _ => rfl⟩
  | cons b rest ih =>
    intro n p
    by_cases hacc : b &&& (M % 256) < A.length % 256
    · by_cases hfull : n + 1 = p.length
      · simp only [scanScratch, if_pos hacc, if_pos hfull]
        refine ⟨Nat.le_succ n, List.length_set .., fun _ => by omega, fun i hi => ?_⟩
        exact getD_set_ne p n i _ (by omega)
      · simp only [scanScratch, if_pos hacc, if_neg hfull]
        obtain ⟨ih1, ih2, ih3, ih4⟩ := ih (n + 1) (p.set n (A.getD (b &&& (M % 256)) 0))
        refine ⟨le_trans (Nat.le_succ n) ih1, by rw [ih2, List.length_set],
          fun hn => ?_, fun i hi => ?_⟩
        · have hlt : n + 1 < (p.set n (A.getD (b &&& (M % 256)) 0)).length := by
            rw [List.length_set]
            omega
          have := ih3 hlt
          rw [List.length_set] at this
          exact this
        · rw [ih4 i hi]
          exact getD_set_ne p n i _ (by omega)
    · simp only [scanScratch, if_neg hacc]
      exact ih n p

/-- If the alphabet length is a multiple of 256 (in particular 256 itself),
the scan accepts nothing: the comparison is against `byte(len) = 0`. -/
lemma scanScratch_reject_all (A : List Nat) (M : Nat) (hA : A.length % 256 = 0) :
    ∀ (scratch : List Nat) (n : Nat) (p : List Nat),
      scanScratch A M scratch n p = (n, p) := by
  intro scratch
  induction scratch with
  | nil => intro n p; rfl
  | cons b rest ih =>
    intro n p
    have hacc : ¬(b &&& (M % 256) < A.length % 256) := by
      rw [hA]
      exact Nat.not_lt_zero _
    simp only [scanScratch, if_neg hacc]
    exact ih n p

/-- Frame property of the batch loop: whenever it returns, the cursor has
only advanced, the returned count is within the buffer, the buffer keeps
its length, every position at or past the count is untouched, and at least
one source read was made. -/
lemma readLoop_spec (r : Reader ε) (size : Nat) :
    ∀ (fuel idx : Nat) (scratch : List Nat) (n : Nat) (p : List Nat)
      (res : ReadResult ε),
      readLoop r size fuel idx scratch n p = .ok res → n < p.length →
      n ≤ res.count ∧ res.count ≤ p.length ∧ res.buffer.length = p.length ∧
      (∀ i, res.count ≤ i → res.buffer.getD i 0 = p.getD i 0) ∧
      idx < res.calls := by
  intro fuel
  induction fuel with
  | zero =>
    intro idx scratch n p res h hn
    cases h
  | succ fuel ih =>
    intro idx scratch n p res h hn
    simp only [readLoop] at h
    obtain ⟨s1, s2, s3, s4⟩ := scanScratch_spec r.alphabet r.mask
      (overwrite scratch ((r.rander idx size).1.map (· % 256))) n p
    cases herr : (r.rander idx size).2 with
    | some e =>
      rw [herr] at h
      injection h with h2
      subst h2
      exact ⟨Nat.le_refl n, Nat.le_of_lt hn, rfl, fun i _ => rfl, Nat.lt_succ_self idx⟩
    | none =>
      rw [herr] at h
      by_cases hdone :
          (scanScratch r.alphabet r.mask
            (overwrite scratch ((r.rander idx size).1.map (· % 256))) n p).1 = p.length
      · rw [if_pos hdone] at h
        injection h with h2
        subst h2
        exact ⟨s1, Nat.le_of_eq hdone, s2, s4, Nat.lt_succ_self idx⟩
      · rw [if_neg hdone] at h
        have hlt : (scanScratch r.alphabet r.mask
            (overwrite scratch ((r.rander idx size).1.map (· % 256))) n p).1
              < (scanScratch r.alphabet r.mask
                (overwrite scratch ((r.rander idx size).1.map (· % 256))) n p).2.length := by
          rw [s2]
          have := s3 hn
          omega
        obtain ⟨j1, j2, j3, j4, j5⟩ := ih (idx + 1) _ _ _ res h hlt
        refine ⟨le_trans s1 j1, ?_, by rw [j3, s2], fun i hi => ?_, by omega⟩
        · rw [s2] at j2
          exact j2
        · rw [j4 i hi]
          exact s4 i (le_trans j1 hi)

/-- C10: on the custom-alphabet path, `Read` writes only below the returned
count: every buffer position at or past the count keeps exactly its prior
content, also when an error is returned (the random source fills only the
internal scratch buffer, never the caller's buffer). -/
theorem c10_frame_effect (ε : Type) :
    ∀ (r : Reader ε) (p0 scratch : List Nat) (fuel : Nat) (res : ReadResult ε),
      r.alphabet ≠ [] → read r p0 scratch fuel = .ok res →
      res.count ≤ p0.length ∧ res.buffer.length = p0.length ∧
      ∀ i, res.count ≤ i → res.buffer.getD i 0 = p0.getD i 0 := by
  intro r p0 scratch fuel res hne h
  by_cases h0 : p0.length = 0
  · rw [read, if_pos h0] at h
    injection h with h2
    subst h2
    refine ⟨?_, rfl, fun i _ => rfl⟩
    show (0 : Nat) ≤ p0.length
    omega
  · have hlen : ¬r.alphabet.length = 0 := by
      have := List.length_pos.mpr hne
      omega
    rw [read, if_neg h0, if_neg hlen] at h
    cases hchk : getRandomSizeChecked r p0.length with
    | error msg =>
      rw [hchk] at h
      cases h
    | ok size =>
      rw [hchk] at h
      obtain ⟨_, j2, j3, j4, _⟩ := readLoop_spec r size fuel 0 scratch 0 p0 res h
        (by omega)
      exact ⟨j2, j3, j4⟩

set_option maxRecDepth 40000 in
/-- Instantiation of C10: a failing source aborts the custom-path `Read`
with count 0 and the caller's buffer entirely untouched. -/
theorem c10_frame_effect_witness :
    read abFailReader [7, 7] [0, 0] 3 = .ok ⟨0, some (.src ()), [7, 7], 1⟩ ∧
      ∀ i, (0 : Nat) ≤ i →
        (ReadResult.buffer ⟨0, some (.src ()), [7, 7], 1⟩).getD i 0
          = ([7, 7] : List Nat).getD i 0 := by
  have hread : read abFailReader [7, 7] [0, 0] 3 = .ok ⟨0, some (.src ()), [7, 7], 1⟩ := by
    decide
  have h := c10_frame_effect Unit abFailReader [7, 7] [0, 0] 3
    ⟨0, some (.src ()), [7, 7], 1⟩ (by decide) hread
  exact ⟨hread, h.2.2⟩

set_option maxRecDepth 40000 in
/-- C3 (divergence at the failing input): with a 256-symbol alphabet — a
size `WithAlphabet` accepts — every scanned byte is rejected, because the
acceptance comparison is against `byte(256) = 0`, and `Read` never
returns no matter how many batches the (never-failing) source serves.  A
single batch leaves the cursor and buffer unchanged. -/
theorem c3_read_custom_bug :
    (∀ fuel, read alpha256Reader [0] [0, 0] fuel = .fuelOut) ∧
      scanScratch (List.range 256) (initializeMask 256) [0, 0] 0 [0] = (0, [0]) := by
  have h256 : (List.range 256).length % 256 = 0 := by
    rw [List.length_range]
  constructor
  · have hloop : ∀ fuel idx scratch,
        readLoop alpha256Reader 2 fuel idx scratch 0 [0] = .fuelOut := by
      intro fuel
      induction fuel with
      | zero => intro idx scratch; rfl
      | succ fuel ih =>
        intro idx scratch
        have hrej := scanScratch_reject_all alpha256Reader.alphabet alpha256Reader.mask
          h256
          (overwrite scratch ((alpha256Reader.rander idx 2).1.map (· % 256))) 0 [0]
        simp only [readLoop]
        have herr : (alpha256Reader.rander idx 2).2 = none := rfl
        rw [herr, hrej]
        simp only [List.length_singleton]
        rw [if_neg (by omega : ¬(0 : Nat) = 1)]
        exact ih (idx + 1) _
    intro fuel
    have hread : read alpha256Reader [0] [0, 0] fuel
        = readLoop alpha256Reader 2 fuel 0 [0, 0] 0 [0] := by
      rfl
    rw [hread]
    exact hloop fuel 0 [0, 0]
  · exact scanScratch_reject_all (List.range 256) (initializeMask 256) h256 [0, 0] 0 [0]

/-! ### Error propagation (C5, C6) and the fast path (C4) -/

/-- If the source fails at the `k`-th upcoming call and succeeds before it,
the batch loop either returns successfully without reaching that call, or
aborts at it with the source's error, having made its last read there and
written fewer than the full buffer. -/
lemma readLoop_abort (r : Reader ε) (size : Nat) (e : ε) :
    ∀ (k fuel idx : Nat) (scratch : List Nat) (n : Nat) (p : List Nat),
      k < fuel → n < p.length →
      (∀ j, j < k → (r.rander (idx + j) size).2 = none) →
      (r.rander (idx + k) size).2 = some e →
      ∃ res, readLoop r size fuel idx scratch n p = .ok res ∧
        ((res.error = none ∧ res.calls ≤ idx + k) ∨
         (res.error = some (.src e) ∧ res.calls = idx + k + 1 ∧
           res.count < p.length)) := by
  intro k
  induction k with
  | zero =>
    intro fuel idx scratch n p hfuel hn hnone herr
    obtain ⟨fuel, rfl⟩ : ∃ f, fuel = f + 1 := ⟨fuel - 1, by omega⟩
    rw [Nat.add_zero] at herr
    refine ⟨⟨n, some (.src e), p, idx + 1⟩, ?_,
      Or.inr ⟨rfl, by show idx + 1 = idx + 0 + 1; omega, hn⟩⟩
    simp [readLoop, herr]
  | succ k ih =>
    intro fuel idx scratch n p hfuel hn hnone herr
    obtain ⟨fuel, rfl⟩ : ∃ f, fuel = f + 1 := ⟨fuel - 1, by omega⟩
    have h0 : (r.rander idx size).2 = none := by
      have := hnone 0 (by omega)
      rwa [Nat.add_zero] at this
    simp only [readLoop, h0]
    obtain ⟨s1, s2, s3, s4⟩ := scanScratch_spec r.alphabet r.mask
      (overwrite scratch ((r.rander idx size).1.map (· % 256))) n p
    by_cases hdone : (scanScratch r.alphabet r.mask
        (overwrite scratch ((r.rander idx size).1.map (· % 256))) n p).1 = p.length
    · rw [if_pos hdone]
      exact ⟨_, rfl, Or.inl ⟨rfl, by show idx + 1 ≤ idx + (k + 1); omega⟩⟩
    · rw [if_neg hdone]
      have hlt : (scanScratch r.alphabet r.mask
          (overwrite scratch ((r.rander idx size).1.map (· % 256))) n p).1
            < (scanScratch r.alphabet r.mask
              (overwrite scratch ((r.rander idx size).1.map (· % 256))) n p).2.length := by
        rw [s2]
        have := s3 hn
        omega
      obtain ⟨res, hres, hcase⟩ := ih fuel (idx + 1) _ _ _ (by omega) hlt
        (fun j hj => by
          have := hnone (j + 1) (by omega)
          rwa [show idx + (j + 1) = idx + 1 + j by omega] at this)
        (by
          have := herr
          rwa [show idx + (k + 1) = idx + 1 + k by omega] at this)
      refine ⟨res, hres, ?_⟩
      rcases hcase with ⟨he, hc⟩ | ⟨he, hc, hcnt⟩
      · exact Or.inl ⟨he, by omega⟩
      · refine Or.inr ⟨he, by omega, ?_⟩
        rw [s2] at hcnt
        exact hcnt

/-- C6: a source error aborts `Read` at once: the returned error is the
source's error value unchanged (no retry, no wrapping), the call count
stops right after the failing read (no further reads), and the count of
characters written before the failure is returned.  On the fast path a
failing first read returns count 0 with the error. -/
theorem c6_error_abort (ε : Type) :
    (∀ (r : Reader ε) (p0 scratch : List Nat) (fuel : Nat) (bytes : List Nat) (e : ε),
      r.alphabet = [] → 1 ≤ p0.length → r.rander 0 p0.length = (bytes, some e) →
      read r p0 scratch fuel
        = .ok ⟨0, some (.src e), overwrite p0 (bytes.map (· % 256)), 1⟩) ∧
    (∀ (r : Reader ε) (p0 scratch : List Nat) (fuel k : Nat) (e : ε),
      r.alphabet ≠ [] → 1 ≤ r.mask → 1 ≤ p0.length → k < fuel →
      (∀ j, j < k →
        (r.rander j (getRandomSize r.mask r.alphabet.length p0.length)).2 = none) →
      (r.rander k (getRandomSize r.mask r.alphabet.length p0.length)).2 = some e →
      ∃ res, read r p0 scratch fuel = .ok res ∧
        ((res.error = none ∧ res.calls ≤ k) ∨
         (res.error = some (.src e) ∧ res.calls = k + 1 ∧
           res.count < p0.length))) := by
  constructor
  · intro r p0 scratch fuel bytes e halpha hlen hr
    have hp0 : p0 ≠ [] := by
      intro hc
      rw [hc] at hlen
      simp at hlen
    simp [read, hr, halpha, hp0]
  · intro r p0 scratch fuel k e hne hmask hlen hfuel hnone herr
    have h0 : ¬p0.length = 0 := by omega
    have hl : ¬r.alphabet.length = 0 := by
      have := List.length_pos.mpr hne
      omega
    have hchk : getRandomSizeChecked r p0.length
        = .ok (getRandomSize r.mask r.alphabet.length p0.length) := by
      rw [getRandomSizeChecked, if_neg hl, if_neg (by omega : ¬r.mask = 0)]
    simp only [read, if_neg h0, if_neg hl, hchk]
    obtain ⟨res, hres, hcase⟩ := readLoop_abort r
      (getRandomSize r.mask r.alphabet.length p0.length) e k fuel 0 scratch 0 p0
      hfuel (by omega) (by simpa using hnone) (by simpa using herr)
    exact ⟨res, hres, by simpa using hcase⟩

set_option maxRecDepth 40000 in
/-- Instantiation of C6: a three-symbol alphabet, one batch of rejected
bytes, then a failing read — `Read` returns count 0 and the source's error
after exactly two reads. -/
theorem c6_error_abort_witness :
    read abcStepReader [9] [3, 3] 5 = .ok ⟨0, some (.src ()), [9], 2⟩ ∧
      ∃ res, read abcStepReader [9] [3, 3] 5 = .ok res ∧
        ((res.error = none ∧ res.calls ≤ 1) ∨
         (res.error = some (.src ()) ∧ res.calls = 1 + 1 ∧ res.count < 1)) := by
  constructor
  · decide
  · have h := (c6_error_abort Unit).2 abcStepReader [9] [3, 3] 5 1 ()
      (by decide) (by decide) (by decide) (by decide)
      (fun j hj => by
        have hj0 : j = 0 := by omega
        subst hj0
        decide)
      (by decide)
    simpa using h

/-- C5 (amended): a failure that the source reports through a non-nil
error aborts the batch loop at once: the error value is propagated
unchanged together with the count and buffer as they were, and bytes
delivered alongside the error are not consumed. -/
theorem c5_error_propagation_amended (ε : Type) :
    ∀ (r : Reader ε) (size fuel idx : Nat) (scratch : List Nat) (n : Nat)
      (p : List Nat) (e : ε),
      (r.rander idx size).2 = some e →
      readLoop r size (fuel + 1) idx scratch n p
        = .ok ⟨n, some (.src e), p, idx + 1⟩ := by
  intro r size fuel idx scratch n p e herr
  simp [readLoop, herr]

set_option maxRecDepth 40000 in
/-- C5 (counterexample): a short read that delivers zero of the requested
bytes with a nil error is not detected: the custom path consumes the stale
scratch byte the source never wrote and returns a full count with no
error. -/
theorem c5_short_read_counterexample :
    read abReader [0] [0] 5 = .ok ⟨1, none, [65], 1⟩ ∧
      abReader.rander 0 1 = ([], none) := by
  exact ⟨by decide, rfl⟩

/-- Instantiation of the amended C5: a source that fails while also
delivering two bytes; the loop aborts without consuming them. -/
theorem c5_error_propagation_witness :
    readLoop abFailBytesReader 1 3 0 [0] 0 [9] = .ok ⟨0, some (.src ()), [9], 1⟩ :=
  c5_error_propagation_amended Unit abFailBytesReader 1 2 0 [0] 0 [9] () rfl

/-- Overwriting with a full delivery replaces the whole buffer. -/
lemma overwrite_full (old new : List Nat) (h : new.length = old.length) :
    overwrite old new = new := by
  rw [overwrite, ← h, List.take_length, Nat.min_self, h, List.drop_length,
    List.append_nil]

/-- C4: with no custom alphabet, `Read` issues exactly one source read of
exactly the buffer length, never rejects a byte, and maps each random byte
`b` to `DefaultAlphabet[b & 63]`. -/
theorem c4_fast_path (ε : Type) :
    ∀ (r : Reader ε) (p0 scratch : List Nat) (fuel : Nat) (bytes : List Nat),
      r.alphabet = [] → 1 ≤ p0.length →
      r.rander 0 p0.length = (bytes, none) → bytes.length = p0.length →
      read r p0 scratch fuel
        = .ok ⟨p0.length, none,
            bytes.map (fun b => defaultAlphabetBytes.getD ((b % 256) &&& 63) 0), 1⟩ := by
  intro r p0 scratch fuel bytes halpha hlen hr hblen
  have h0 : ¬p0.length = 0 := by omega
  have hl : r.alphabet.length = 0 := by rw [halpha]; rfl
  have hov : overwrite p0 (bytes.map (· % 256)) = bytes.map (· % 256) :=
    overwrite_full _ _ (by rw [List.length_map, hblen])
  simp only [read, if_neg h0, if_pos hl, hr, hov, List.map_map]
  rfl

set_option maxRecDepth 40000 in
/-- Instantiation of C4 at the spec's concrete scenario 1: bytes
`0,…,20` produce exactly the first 21 characters of the default
alphabet. -/
theorem c4_fast_path_witness :
    read defaultPathReader (List.replicate 21 0) [] 1
      = .ok ⟨21, none, defaultAlphabetBytes.take 21, 1⟩ := by
  have h := c4_fast_path Unit defaultPathReader (List.replicate 21 0) [] 1
    (List.range 21) rfl (by decide) rfl (by decide)
  rw [h]
  decide

end Nanoid
